import Mathlib

/-!
Verification of the task-list state-management core of a React todo
application (`src/App.jsx`).  The store state is a list of tasks plus a
transient list of "exiting" ids used only for the removal animation;
tasks persist to a single localStorage slot as a JSON array.

The shallow embedding below mirrors `App.jsx`:
* `Task` is the persisted record `{id, text, completed, createdAt}`;
  JavaScript numbers holding millisecond timestamps are modelled as `Int`.
* `jsTrim` embeds `String.prototype.trim`, `jsOrInt`/`jsOrStr`/`jsOrBool`
  embed the JavaScript `||` defaulting idiom used by the loader (note that
  `0`, `""` and `false` are falsy).
* `Stored` models the possible states of the storage slot as seen by
  `loadTodosFromStorage`: absent key, a value that fails `JSON.parse`
  (caught, so the function still returns), a parsed value that is not an
  array, or a parsed array of per-field-optional task records (`RawTask`, every field
  optional).
* `addTodo` takes the clock reading `Date.now()` as the explicit argument
  `now` (used for both `id` and `createdAt`) and the input-field contents
  as `rawText`.
* `clearCompleted` returns the immediately updated state together with the
  list captured by the 400 ms `setTimeout` closure; `clearCompletedFire`
  is that deferred callback, which replaces the todos with a filter of the
  captured list and ignores whatever the current state is.
-/

namespace TodoApp

/-- A persisted task record, as stored by the application. -/
structure Task where
  id : Int
  text : String
  completed : Bool
  createdAt : Int
deriving DecidableEq

/-- A parsed JSON object from the storage slot: every field may be absent. -/
structure RawTask where
  id : Option Int
  text : Option String
  completed : Option Bool
  createdAt : Option Int
deriving DecidableEq

/-- The state of the localStorage slot as observed by the loader. -/
inductive Stored where
  | absent : Stored
  | corrupt : Stored
  | notArray : Stored
  | array : List RawTask → Stored
deriving DecidableEq

/-- The in-memory component state: the task list plus the transient
exiting-id list used only to drive the removal animation. -/
structure AppState where
  todos : List Task
  exitingIds : List Int
deriving DecidableEq

/-- Embedding of the whitespace class trimmed by JavaScript trim
(space, tab, line feed, carriage return, vertical tab, form feed). -/
def isJsWhitespace (c : Char) : Bool :=
  c == ' ' || c == '\t' || c == '\n' || c == '\r' ||
    c == Char.ofNat 11 || c == Char.ofNat 12

/-- Embedding of `String.prototype.trim`: drop whitespace from both ends. -/
def jsTrim (s : String) : String :=
  String.mk (((s.data.dropWhile isJsWhitespace).reverse.dropWhile
    isJsWhitespace).reverse)

/-- JavaScript `x || d` for a possibly-absent number field: `0` is falsy. -/
def jsOrInt (x : Option Int) (d : Int) : Int :=
  match x with
  | some v => if v = 0 then d else v
  | none => d

/-- JavaScript `x || d` for a possibly-absent string field: `""` is falsy. -/
def jsOrStr (x : Option String) (d : String) : String :=
  match x with
  | some v => if v = "" then d else v
  | none => d

/-- JavaScript `x || d` for a possibly-absent boolean field. -/
def jsOrBool (x : Option Bool) (d : Bool) : Bool :=
  match x with
  | some v => v || d
  | none => d

/-- The per-entry backward-compatibility repair performed by
`loadTodosFromStorage`:
`{id: todo.id || Date.now(), text: todo.text || '', completed:
todo.completed || false, createdAt: todo.createdAt || todo.id || Date.now()}`. -/
def repairTodo (now : Int) (todo : RawTask) : Task :=
  { id := jsOrInt todo.id now
    text := jsOrStr todo.text ""
    completed := jsOrBool todo.completed false
    createdAt := jsOrInt todo.createdAt (jsOrInt todo.id now) }

/-- Embedding of `loadTodosFromStorage`: a missing key, a parse failure
(caught by the `try`/`catch`) or a parsed value that is not a non-empty
array all yield `[]`; a non-empty array is mapped through `repairTodo`.
The function is total: no failure escapes to the caller. -/
def loadTodosFromStorage (s : Stored) (now : Int) : List Task :=
  match s with
  | Stored.array parsedTodos =>
      if 0 < parsedTodos.length then parsedTodos.map (repairTodo now) else []
  | _ => []

/-- Serialization of one task by `JSON.stringify`: every field is present. -/
def taskToRaw (t : Task) : RawTask :=
  { id := some t.id, text := some t.text, completed := some t.completed
    createdAt := some t.createdAt }

/-- Embedding of the save effect — the setItem call on the "todos" slot
with the JSON.stringify of the list: the slot holds the serialized array. -/
def saveTodos (todos : List Task) : Stored :=
  Stored.array (todos.map taskToRaw)

/-- The persistence `useEffect` serializes only `todos`; the transient
`exitingIds` component of the state is never written to storage. -/
def saveApp (st : AppState) : Stored :=
  saveTodos st.todos

/-- Embedding of `addTodo`: trim the input, do nothing if the result is
empty, otherwise append a new task whose `id` and `createdAt` are the
clock reading `now`. -/
def addTodo (todos : List Task) (now : Int) (rawText : String) : List Task :=
  if jsTrim rawText = "" then todos
  else todos ++
    [{ id := now, text := jsTrim rawText, completed := false, createdAt := now }]

/-- Embedding of `deleteTodo`: keep the tasks whose id differs. -/
def deleteTodo (todos : List Task) (id : Int) : List Task :=
  todos.filter (fun todo => !(todo.id == id))

/-- Embedding of `toggleComplete`: flip `completed` on matching ids. -/
def toggleComplete (todos : List Task) (id : Int) : List Task :=
  todos.map (fun todo =>
    if todo.id == id then { todo with completed := !todo.completed } else todo)

/-- Embedding of `updateTodo`: trim the input, do nothing if the result is
empty, otherwise replace `text` on matching ids. -/
def updateTodo (todos : List Task) (id : Int) (newText : String) : List Task :=
  if jsTrim newText = "" then todos
  else todos.map (fun todo =>
    if todo.id == id then { todo with text := jsTrim newText } else todo)

/-- The ids collected by `clearCompleted` before scheduling the removal. -/
def completedIds (todos : List Task) : List Int :=
  (todos.filter (fun todo => todo.completed)).map (fun todo => todo.id)

/-- Embedding of the synchronous part of `clearCompleted`: if no task is
completed it returns unchanged state and schedules nothing; otherwise it
flags the completed ids as exiting and schedules the deferred callback,
whose closure captures the current `todos`.  The second component is the
captured list (`none` when nothing was scheduled). -/
def clearCompleted (st : AppState) : AppState × Option (List Task) :=
  if (completedIds st.todos).length = 0 then (st, none)
  else ({ st with exitingIds := completedIds st.todos }, some st.todos)

/-- Embedding of the deferred callback of `clearCompleted` (runs 400 ms
later): it sets `todos` to a filter of the list captured at call time —
the current state is ignored — and clears the exiting ids. -/
def clearCompletedFire (captured : List Task) (_current : AppState) : AppState :=
  { todos := captured.filter (fun todo => !todo.completed), exitingIds := [] }

/-- A store operation, as dispatched from the view. -/
inductive Op where
  | add (now : Int) (rawText : String)
  | edit (id : Int) (rawText : String)
  | toggle (id : Int)
  | del (id : Int)
deriving DecidableEq

/-- Apply one operation to the task list. -/
def applyOp (todos : List Task) : Op → List Task
  | Op.add now rawText => addTodo todos now rawText
  | Op.edit i rawText => updateTodo todos i rawText
  | Op.toggle i => toggleComplete todos i
  | Op.del i => deleteTodo todos i

/-- Run a sequence of operations from a given list. -/
def runFrom (todos : List Task) (ops : List Op) : List Task :=
  ops.foldl applyOp todos

/-- Run a sequence of operations from the empty list. -/
def runOps (ops : List Op) : List Task :=
  runFrom [] ops

/-- Freshness of one operation against the current list: an effective add
must use a clock reading that is not an existing id.  Operations other
than add, and blank adds (which do not allocate an id), are unconstrained. -/
def freshAdd (todos : List Task) : Op → Bool
  | Op.add now rawText =>
      (jsTrim rawText == "") || todos.all (fun t => !(t.id == now))
  | _ => true

/-- Freshness of a whole run: every add uses a clock reading distinct from
all ids present at that moment (the behaviour of a strictly increasing
millisecond clock). -/
def freshRun (todos : List Task) : List Op → Bool
  | [] => true
  | op :: rest => freshAdd todos op && freshRun (applyOp todos op) rest

/-- An operation counted as an add by the specification. -/
def isAddOp : Op → Bool
  | Op.add _ _ => true
  | _ => false

/-- An operation counted as a delete by the specification. -/
def isDelOp : Op → Bool
  | Op.del _ => true
  | _ => false

/-- An add whose trimmed text is non-empty, i.e. one that appends a task. -/
def isEffAdd : Op → Bool
  | Op.add _ rawText => !(jsTrim rawText == "")
  | _ => false

/-- Number of tasks a single operation removes from the given list. -/
def removedBy (todos : List Task) : Op → Nat
  | Op.del i => todos.countP (fun t => t.id == i)
  | _ => 0

/-- Total number of tasks removed by the delete operations of a run. -/
def removedFrom (todos : List Task) : List Op → Nat
  | [] => 0
  | op :: rest => removedBy todos op + removedFrom (applyOp todos op) rest

/-- One-id simulation: the state of the task with id `i` (if present) as a
fold over the operations.  An add creates it when the clock reading equals
`i` and the text is non-blank and no task with id `i` exists yet; an
effective edit replaces its text; a toggle flips its flag; a delete with
its id removes it.  This is the "latest write wins" reading of the spec. -/
def stepSim (i : Int) (s : Option Task) : Op → Option Task
  | Op.add now rawText =>
      match s with
      | none =>
          if !(jsTrim rawText == "") && (now == i) then
            some { id := now, text := jsTrim rawText, completed := false
                   createdAt := now }
          else none
      | some t => some t
  | Op.edit j rawText =>
      match s with
      | none => none
      | some t =>
          if (j == i) && !(jsTrim rawText == "") then
            some { t with text := jsTrim rawText }
          else some t
  | Op.toggle j =>
      match s with
      | none => none
      | some t =>
          if j == i then some { t with completed := !t.completed } else some t
  | Op.del j => if j == i then none else s

theorem dropWhile_eq_nil_of_all {α : Type} (p : α → Bool) (l : List α)
    (h : ∀ c ∈ l.dropWhile p, p c = true) : l.dropWhile p = [] := by
  induction l with
  | nil => rfl
  | cons a t ih =>
      by_cases ha : p a = true
      · simp only [List.dropWhile_cons, ha, if_true] at h ⊢
        exact ih h
      · simp only [List.dropWhile_cons, ha, if_false] at h ⊢
        exact absurd (h a (List.mem_cons_self a t)) ha

theorem mem_dropWhile_of_not {α : Type} (p : α → Bool) (c : α) (l : List α)
    (hc : p c = false) (h : c ∈ l) : c ∈ l.dropWhile p := by
  induction l with
  | nil => simp at h
  | cons a t ih =>
      by_cases ha : p a = true
      · rw [List.dropWhile_cons, if_pos ha]
        rcases List.mem_cons.mp h with h1 | h2
        · subst h1; simp [hc] at ha
        · exact ih h2
      · rw [List.dropWhile_cons, if_neg ha]
        exact h

theorem jsTrim_eq_empty_iff (s : String) :
    jsTrim s = "" ↔ ∀ c ∈ s.data, isJsWhitespace c = true := by
  unfold jsTrim
  rw [String.ext_iff]
  show (((s.data.dropWhile isJsWhitespace).reverse.dropWhile
    isJsWhitespace).reverse = ([] : List Char)) ↔ _
  rw [List.reverse_eq_nil_iff, List.dropWhile_eq_nil_iff]
  simp only [List.mem_reverse]
  constructor
  · intro h
    have h0 : s.data.dropWhile isJsWhitespace = [] :=
      dropWhile_eq_nil_of_all _ _ (fun c hc => h c hc)
    intro c hc
    exact List.dropWhile_eq_nil_iff.mp h0 c hc
  · intro h c hc
    exact h c ((List.dropWhile_sublist isJsWhitespace).subset hc)

theorem jsTrim_jsTrim_ne (s : String) (h : jsTrim s ≠ "") :
    jsTrim (jsTrim s) ≠ "" := by
  intro h2
  apply h
  rw [jsTrim_eq_empty_iff] at h2 ⊢
  intro c hc
  by_contra hcf
  have hcf2 : isJsWhitespace c = false := by
    cases hx : isJsWhitespace c
    · rfl
    · exact absurd hx hcf
  apply hcf
  apply h2
  show c ∈ (((s.data.dropWhile isJsWhitespace).reverse.dropWhile
    isJsWhitespace).reverse)
  rw [List.mem_reverse]
  apply mem_dropWhile_of_not _ _ _ hcf2
  rw [List.mem_reverse]
  exact mem_dropWhile_of_not _ _ _ hcf2 hc

/-- C4: `add` trims its input; a blank input (for example `""` or `"   "`)
leaves the list unchanged, and otherwise exactly one new task is appended
at the end of the list, carrying the trimmed text, `completed = false` and
`createdAt` set to the current clock reading, with all pre-existing tasks
unchanged. -/
theorem C4_add_trims_and_appends (todos : List Task) (now : Int)
    (rawText : String) :
    (jsTrim rawText = "" → addTodo todos now rawText = todos)
    ∧ (jsTrim rawText ≠ "" →
        addTodo todos now rawText =
          todos ++ [{ id := now, text := jsTrim rawText, completed := false,
                      createdAt := now }])
    ∧ addTodo todos now "" = todos
    ∧ addTodo todos now "   " = todos := by
  have he : jsTrim "" = "" := by decide
  have hs : jsTrim "   " = "" := by decide
  refine ⟨fun h => by simp [addTodo, h], fun h => by simp [addTodo, h],
    by simp [addTodo, he], by simp [addTodo, hs]⟩

/-- Witness for C4 at a concrete input: adding `" a "` to the empty list
appends the trimmed task. -/
theorem C4_witness :
    addTodo [] 7 " a " =
      [{ id := 7, text := "a", completed := false, createdAt := 7 }] := by
  have h := (C4_add_trims_and_appends [] 7 " a ").2.1 (by decide)
  rw [h]
  decide

theorem map_eq_self_of_no_match (todos : List Task) (f : Task → Task)
    (h : ∀ t ∈ todos, f t = t) : todos.map f = todos := by
  calc todos.map f = todos.map (fun t => t) := List.map_congr_left h
  _ = todos := by simp

/-- C5: `edit` trims its input; a blank input leaves the list unchanged (in
particular `edit(id, "")` on an existing task leaves that task's text as it
was, not cleared); otherwise the task whose id matches gets its text
replaced by the trimmed input while its other fields are untouched, every
other task is unchanged, and the call is a no-op when no task has that id. -/
theorem C5_edit_trims_and_replaces (todos : List Task) (id : Int)
    (newText : String) :
    (jsTrim newText = "" → updateTodo todos id newText = todos)
    ∧ (updateTodo todos id newText).length = todos.length
    ∧ (∀ (k : Nat) (hk : k < todos.length)
        (hk2 : k < (updateTodo todos id newText).length),
        ((todos.get ⟨k, hk⟩).id ≠ id →
          (updateTodo todos id newText).get ⟨k, hk2⟩ = todos.get ⟨k, hk⟩)
        ∧ ((todos.get ⟨k, hk⟩).id = id → jsTrim newText ≠ "" →
          (updateTodo todos id newText).get ⟨k, hk2⟩ =
            { id := (todos.get ⟨k, hk⟩).id, text := jsTrim newText,
              completed := (todos.get ⟨k, hk⟩).completed,
              createdAt := (todos.get ⟨k, hk⟩).createdAt }))
    ∧ ((∀ t ∈ todos, t.id ≠ id) → updateTodo todos id newText = todos) := by
  refine ⟨fun h => by simp [updateTodo, h], ?_, ?_, ?_⟩
  · unfold updateTodo
    by_cases h : jsTrim newText = "" <;> simp [h]
  · intro k hk hk2
    by_cases h : jsTrim newText = ""
    · constructor
      · intro _
        simp [updateTodo, h]
      · intro _ hne
        exact absurd h hne
    · have hget : (updateTodo todos id newText).get ⟨k, hk2⟩ =
          (fun todo => if todo.id == id then
            { todo with text := jsTrim newText } else todo)
            (todos.get ⟨k, hk⟩) := by
        simp only [updateTodo, h, if_false, List.get_eq_getElem,
          List.getElem_map]
      constructor
      · intro hne
        rw [hget]
        simp only [beq_iff_eq, hne, if_false]
      · intro heq _
        rw [hget]
        simp only [beq_iff_eq, heq, if_true]
  · intro h
    unfold updateTodo
    by_cases hb : jsTrim newText = ""
    · simp [hb]
    · simp only [hb, if_neg]
      apply map_eq_self_of_no_match
      intro t ht
      rw [if_neg]
      simp only [beq_iff_eq]
      exact h t ht

/-- Witness for C5 at a concrete input: a blank edit is discarded and an
effective edit rewrites only the text of the matching task. -/
theorem C5_witness :
    updateTodo [{ id := 1, text := "a", completed := true, createdAt := 2 }]
        1 "" =
      [{ id := 1, text := "a", completed := true, createdAt := 2 }] := by
  exact (C5_edit_trims_and_replaces
    [{ id := 1, text := "a", completed := true, createdAt := 2 }] 1 "").1
    (by decide)

/-- C9: `toggle` flips the completed flag of the task whose id matches and
changes nothing else — the matching task keeps its id, text and createdAt
(createdAt is set once at creation and immutable thereafter), every other
task is unchanged, and the call is a no-op when no task has that id. -/
theorem C9_toggle_flips_only_completed (todos : List Task) (id : Int) :
    (toggleComplete todos id).length = todos.length
    ∧ (∀ (k : Nat) (hk : k < todos.length)
        (hk2 : k < (toggleComplete todos id).length),
        ((todos.get ⟨k, hk⟩).id ≠ id →
          (toggleComplete todos id).get ⟨k, hk2⟩ = todos.get ⟨k, hk⟩)
        ∧ ((todos.get ⟨k, hk⟩).id = id →
          (toggleComplete todos id).get ⟨k, hk2⟩ =
            { id := (todos.get ⟨k, hk⟩).id, text := (todos.get ⟨k, hk⟩).text,
              completed := !(todos.get ⟨k, hk⟩).completed,
              createdAt := (todos.get ⟨k, hk⟩).createdAt }))
    ∧ ((∀ t ∈ todos, t.id ≠ id) → toggleComplete todos id = todos) := by
  refine ⟨by simp [toggleComplete], ?_, ?_⟩
  · intro k hk hk2
    have hget : (toggleComplete todos id).get ⟨k, hk2⟩ =
        (fun todo => if todo.id == id then
          { todo with completed := !todo.completed } else todo)
          (todos.get ⟨k, hk⟩) := by
      simp only [toggleComplete, List.get_eq_getElem]
      rw [List.getElem_map]
    constructor
    · intro hne
      rw [hget]
      simp only [beq_iff_eq, hne, if_false]
    · intro heq
      rw [hget]
      simp only [beq_iff_eq, heq, if_true]
  · intro h
    unfold toggleComplete
    apply map_eq_self_of_no_match
    intro t ht
    rw [if_neg]
    simp only [beq_iff_eq]
    exact h t ht

/-- Witness for C9 at a concrete input: toggling the matching task flips
only its completed flag. -/
theorem C9_witness :
    List.get
      (toggleComplete
        [{ id := 1, text := "a", completed := false, createdAt := 2 }] 1)
      (Fin.mk 0 (by decide)) =
      { id := 1, text := "a", completed := true, createdAt := 2 } := by
  have h := ((C9_toggle_flips_only_completed
    [{ id := 1, text := "a", completed := false, createdAt := 2 }] 1).2.1
    0 (by decide) (by decide)).2 (by decide)
  rw [h]
  decide

/-- C1: round-trip law — for every well-formed list of tasks (non-zero
integer id, non-empty text, boolean completed, non-zero integer createdAt),
loading right after saving returns the same list, whatever the transient
exiting-id state is: the exiting flag is never persisted. -/
theorem C1_roundtrip (todos : List Task) (ex : List Int) (now : Int)
    (h : ∀ t ∈ todos, t.id ≠ 0 ∧ t.text ≠ "" ∧ t.createdAt ≠ 0) :
    loadTodosFromStorage (saveApp { todos := todos, exitingIds := ex }) now
      = todos := by
  have hrepair : ∀ t ∈ todos, (repairTodo now ∘ taskToRaw) t = t := by
    intro t ht
    obtain ⟨hid, htext, hca⟩ := h t ht
    simp [Function.comp, repairTodo, taskToRaw, jsOrInt, jsOrStr, jsOrBool,
      hid, hca, htext]
  show (if 0 < (todos.map taskToRaw).length then
      (todos.map taskToRaw).map (repairTodo now) else []) = todos
  cases todos with
  | nil => simp
  | cons t0 rest =>
      rw [if_pos (by simp), List.map_map]
      exact map_eq_self_of_no_match _ _ hrepair

/-- Witness for C1 at a concrete well-formed singleton list with a
non-empty transient exiting set. -/
theorem C1_witness :
    loadTodosFromStorage
      (saveApp
        { todos := [{ id := 5, text := "x", completed := true, createdAt := 6 }]
          exitingIds := [5] }) 99
      = [{ id := 5, text := "x", completed := true, createdAt := 6 }] :=
  C1_roundtrip _ _ 99 (by decide)

/-- C2: `load` returns the empty list whenever the stored value is absent,
fails to parse, or is not a non-empty array — the parse failure is caught,
so no exception escapes the (total) call; when the stored value is a
non-empty array, an entry missing createdAt is repaired to createdAt = its
id (or the current time when the id is also absent), so the entry
`{id: 5, text: "x", completed: false}` loads with createdAt = 5. -/
theorem C2_load_recovers_and_repairs (now : Int) :
    (loadTodosFromStorage Stored.absent now = []
      ∧ loadTodosFromStorage Stored.corrupt now = []
      ∧ loadTodosFromStorage Stored.notArray now = []
      ∧ loadTodosFromStorage (Stored.array []) now = [])
    ∧ (∀ r : RawTask, r.createdAt = none →
        (∀ v : Int, r.id = some v → v ≠ 0 → (repairTodo now r).createdAt = v)
        ∧ (r.id = none → (repairTodo now r).createdAt = now))
    ∧ loadTodosFromStorage
        (Stored.array
          [{ id := some 5, text := some "x", completed := some false
             createdAt := none }]) now
      = [{ id := 5, text := "x", completed := false, createdAt := 5 }] := by
  refine ⟨⟨rfl, rfl, rfl, rfl⟩, ?_, ?_⟩
  · intro r hca
    constructor
    · intro v hid hv
      simp [repairTodo, jsOrInt, hca, hid, hv]
    · intro hid
      simp [repairTodo, jsOrInt, hca, hid]
  · have h5 : ((5 : Int) = 0) = False := by simp
    simp [loadTodosFromStorage, repairTodo, jsOrInt, jsOrStr, jsOrBool, h5]

/-- Witness for C2 at a concrete clock value: the entry with id 5 and no
createdAt is repaired to createdAt = 5, not to the current time 99. -/
theorem C2_witness :
    (repairTodo 99
      { id := some 5, text := some "x", completed := some false
        createdAt := none }).createdAt = 5 :=
  ((C2_load_recovers_and_repairs 99).2.1
    { id := some 5, text := some "x", completed := some false
      createdAt := none } rfl).1 5 rfl (by decide)

/-- C6: `clearCompleted` removes every task with completed = true; the
removal is deferred, and in the meantime the completed tasks are exactly
the ones flagged exiting; once the deferred callback fires the list
contains exactly the tasks that were not completed at call time, in their
original order; in the scenario empty → add("Buy milk") → toggle(id) →
clearCompleted(), the list is empty after the deferral elapses. -/
theorem C6_clear_completed_deferred (st : AppState) (cur : AppState) :
    (∀ t, t ∈ (clearCompletedFire st.todos cur).todos ↔
      t ∈ st.todos ∧ t.completed = false)
    ∧ ((clearCompletedFire st.todos cur).todos).Sublist st.todos
    ∧ (completedIds st.todos ≠ [] →
        clearCompleted st =
          ({ todos := st.todos, exitingIds := completedIds st.todos },
            some st.todos))
    ∧ (∀ t ∈ st.todos, t.completed = true → t.id ∈ completedIds st.todos)
    ∧ (clearCompletedFire
        (toggleComplete (addTodo [] 100 "Buy milk") 100) cur).todos = [] := by
  refine ⟨?_, ?_, ?_, ?_, ?_⟩
  · intro t
    simp [clearCompletedFire]
  · exact List.filter_sublist _
  · intro h
    have hne : ¬ (completedIds st.todos).length = 0 := by
      intro h0
      exact h (List.length_eq_zero.mp h0)
    unfold clearCompleted
    rw [if_neg hne]
  · intro t ht hc
    simp only [completedIds, List.mem_map]
    exact ⟨t, List.mem_filter.mpr ⟨ht, hc⟩, rfl⟩
  · show ((toggleComplete (addTodo [] 100 "Buy milk") 100).filter
      (fun todo => !todo.completed)) = []
    decide

/-- Witness for C6 at concrete states: calling clearCompleted on a list
with one completed task flags that task as exiting and captures the list,
and the add/toggle/clear scenario leaves the empty list once the deferred
removal fires. -/
theorem C6_witness :
    clearCompleted
      { todos := [{ id := 1, text := "a", completed := true, createdAt := 1 }]
        exitingIds := [] } =
      ({ todos := [{ id := 1, text := "a", completed := true, createdAt := 1 }]
         exitingIds := [1] },
        some [{ id := 1, text := "a", completed := true, createdAt := 1 }])
    ∧ (clearCompletedFire
        (toggleComplete (addTodo [] 100 "Buy milk") 100)
        { todos := [], exitingIds := [] }).todos = [] := by
  constructor
  · have h := (C6_clear_completed_deferred
      { todos := [{ id := 1, text := "a", completed := true, createdAt := 1 }]
        exitingIds := [] }
      { todos := [], exitingIds := [] }).2.2.1 (by decide)
    exact h.trans (by decide)
  · exact (C6_clear_completed_deferred
      { todos := [], exitingIds := [] }
      { todos := [], exitingIds := [] }).2.2.2.2

/-- C10: the deferred callback of `clearCompleted` replaces the whole list
with a filter of the list captured at the moment of the call — it ignores
the current list entirely — so a task added during the 400 ms deferral
window (which is in the list right after the add) is absent once the
deferred removal fires: mutations made during the window are discarded. -/
theorem C10_deferral_discards_concurrent_add (st : AppState) (now : Int)
    (rawText : String) (hcompleted : ∃ t ∈ st.todos, t.completed = true)
    (htext : jsTrim rawText ≠ "") (hfresh : ∀ t ∈ st.todos, t.id ≠ now) :
    (∀ cur cur2 : AppState,
      clearCompletedFire st.todos cur = clearCompletedFire st.todos cur2)
    ∧ (clearCompleted st).2 = some st.todos
    ∧ now ∈ (addTodo st.todos now rawText).map (fun t => t.id)
    ∧ (∀ t ∈ (clearCompletedFire st.todos
        { todos := addTodo st.todos now rawText
          exitingIds := completedIds st.todos }).todos, t.id ≠ now) := by
  refine ⟨fun cur cur2 => rfl, ?_, ?_, ?_⟩
  · obtain ⟨t, ht, hc⟩ := hcompleted
    have hmem : t.id ∈ completedIds st.todos := by
      simp only [completedIds, List.mem_map]
      exact ⟨t, List.mem_filter.mpr ⟨ht, hc⟩, rfl⟩
    have hne : ¬ (completedIds st.todos).length = 0 := by
      intro h0
      rw [List.length_eq_zero.mp h0] at hmem
      simp at hmem
    unfold clearCompleted
    rw [if_neg hne]
  · simp [addTodo, htext]
  · intro t ht
    have hmem : t ∈ st.todos := by
      have := (List.mem_filter.mp ht).1
      exact this
    exact hfresh t hmem

/-- Witness for C10 at a concrete input: with a completed task in the list,
the task added during the deferral (id 2) is present right after the add. -/
theorem C10_witness :
    (2 : Int) ∈
      (addTodo
        [{ id := 1, text := "a", completed := true, createdAt := 1 }]
        2 "b").map (fun t => t.id) :=
  (C10_deferral_discards_concurrent_add
    { todos := [{ id := 1, text := "a", completed := true, createdAt := 1 }]
      exitingIds := [] } 2 "b"
    ⟨{ id := 1, text := "a", completed := true, createdAt := 1 },
      by decide, rfl⟩
    (by decide) (by decide)).2.2.1

theorem ids_updateTodo (todos : List Task) (i : Int) (raw : String) :
    (updateTodo todos i raw).map (fun t => t.id) =
      todos.map (fun t => t.id) := by
  unfold updateTodo
  by_cases h : jsTrim raw = ""
  · simp [h]
  · simp only [h, if_false, List.map_map]
    apply List.map_congr_left
    intro t ht
    by_cases h2 : (t.id == i) = true <;> simp [Function.comp, h2]

theorem ids_toggleComplete (todos : List Task) (i : Int) :
    (toggleComplete todos i).map (fun t => t.id) =
      todos.map (fun t => t.id) := by
  unfold toggleComplete
  rw [List.map_map]
  apply List.map_congr_left
  intro t ht
  by_cases h2 : (t.id == i) = true <;> simp [Function.comp, h2]

theorem nodup_ids_applyOp (todos : List Task) (op : Op)
    (hfresh : freshAdd todos op = true)
    (h : (todos.map (fun t => t.id)).Nodup) :
    ((applyOp todos op).map (fun t => t.id)).Nodup := by
  cases op with
  | add now raw =>
      by_cases hb : jsTrim raw = ""
      · simpa [applyOp, addTodo, hb] using h
      · have hfresh2 : ∀ t ∈ todos, t.id ≠ now := by
          simp only [freshAdd, Bool.or_eq_true, beq_iff_eq, hb,
            List.all_eq_true, Bool.not_eq_true', beq_eq_false_iff_ne,
            false_or] at hfresh
          exact hfresh
        show ((addTodo todos now raw).map (fun t => t.id)).Nodup
        rw [show addTodo todos now raw = todos ++
          [{ id := now, text := jsTrim raw, completed := false,
             createdAt := now }] from by simp [addTodo, hb]]
        rw [List.map_append]
        refine List.Nodup.append h (by simp) ?_
        intro a ha hmem
        simp only [List.map_cons, List.map_nil, List.mem_singleton] at hmem
        subst hmem
        rcases List.mem_map.mp ha with ⟨t, ht, hteq⟩
        exact hfresh2 t ht hteq
  | edit i raw =>
      show ((updateTodo todos i raw).map (fun t => t.id)).Nodup
      rw [ids_updateTodo]
      exact h
  | toggle i =>
      show ((toggleComplete todos i).map (fun t => t.id)).Nodup
      rw [ids_toggleComplete]
      exact h
  | del i =>
      exact h.sublist (List.Sublist.map _ (List.filter_sublist _))

theorem nodup_ids_runFrom (ops : List Op) : ∀ todos : List Task,
    freshRun todos ops = true →
    (todos.map (fun t => t.id)).Nodup →
    ((runFrom todos ops).map (fun t => t.id)).Nodup := by
  induction ops with
  | nil => exact fun todos _ h => h
  | cons op rest ih =>
      intro todos hf h
      rw [freshRun, Bool.and_eq_true] at hf
      exact ih (applyOp todos op) hf.2 (nodup_ids_applyOp todos op hf.1 h)

/-- C3 fails on the code: `add` takes the current millisecond clock reading
as the new id without checking it against the list, so two adds with the
same clock reading — two calls in the same millisecond — collide.  After
add at clock 100 the list holds id 100, and a second add at that same
clock reading assigns id 100 again, so the ids are no longer unique. -/
theorem C3_counterexample :
    (100 : Int) ∈ (addTodo [] 100 "a").map (fun t => t.id)
    ∧ (addTodo (addTodo [] 100 "a") 100 "b").map (fun t => t.id) = [100, 100]
    ∧ ¬ ((addTodo (addTodo [] 100 "a") 100 "b").map
        (fun t => t.id)).Nodup := by
  refine ⟨by decide, by decide, by decide⟩

/-- C3 amended: `add` assigns the clock reading as the new id; provided
every effective add happens at a clock reading distinct from all ids
already in the list (what a strictly increasing millisecond clock gives —
the code itself does not tolerate two adds in the same millisecond), the
new id collides with no existing id and id-uniqueness holds after every
operation of the run. -/
theorem C3_amended_ids_unique (ops : List Op) (h : freshRun [] ops = true) :
    ((runOps ops).map (fun t => t.id)).Nodup :=
  nodup_ids_runFrom ops [] h (by simp)

/-- Witness for the amended C3 on a concrete fresh run of four operations. -/
theorem C3_witness :
    freshRun [] [Op.add 1 "a", Op.toggle 1, Op.add 2 "b", Op.del 1] = true
    ∧ ((runOps [Op.add 1 "a", Op.toggle 1, Op.add 2 "b", Op.del 1]).map
        (fun t => t.id)).Nodup :=
  ⟨by decide, C3_amended_ids_unique
    [Op.add 1 "a", Op.toggle 1, Op.add 2 "b", Op.del 1] (by decide)⟩

theorem text_inv_applyOp (todos : List Task) (op : Op)
    (h : ∀ t ∈ todos, jsTrim t.text ≠ "") :
    ∀ t ∈ applyOp todos op, jsTrim t.text ≠ "" := by
  cases op with
  | add now raw =>
      intro t ht
      by_cases hb : jsTrim raw = ""
      · rw [show applyOp todos (Op.add now raw) = todos from
          by simp [applyOp, addTodo, hb]] at ht
        exact h t ht
      · rw [show applyOp todos (Op.add now raw) = todos ++
          [{ id := now, text := jsTrim raw, completed := false,
             createdAt := now }] from by simp [applyOp, addTodo, hb]] at ht
        rcases List.mem_append.mp ht with ht2 | ht2
        · exact h t ht2
        · rw [List.mem_singleton] at ht2
          subst ht2
          exact jsTrim_jsTrim_ne raw hb
  | edit i raw =>
      intro t ht
      by_cases hb : jsTrim raw = ""
      · rw [show applyOp todos (Op.edit i raw) = todos from
          by simp [applyOp, updateTodo, hb]] at ht
        exact h t ht
      · rw [show applyOp todos (Op.edit i raw) = todos.map (fun todo =>
          if todo.id == i then { todo with text := jsTrim raw } else todo)
          from by simp [applyOp, updateTodo, hb]] at ht
        rcases List.mem_map.mp ht with ⟨t0, ht0, hteq⟩
        subst hteq
        by_cases h2 : (t0.id == i) = true
        · simp only [h2, if_true]
          exact jsTrim_jsTrim_ne raw hb
        · simp only [h2, if_false]
          exact h t0 ht0
  | toggle i =>
      intro t ht
      rcases List.mem_map.mp ht with ⟨t0, ht0, hteq⟩
      subst hteq
      by_cases h2 : (t0.id == i) = true
      · simp only [h2, if_true]
        exact h t0 ht0
      · simp only [h2, if_false]
        exact h t0 ht0
  | del i =>
      intro t ht
      exact h t ((List.filter_sublist todos).subset ht)

theorem text_inv_runFrom (ops : List Op) : ∀ todos : List Task,
    (∀ t ∈ todos, jsTrim t.text ≠ "") →
    ∀ t ∈ runFrom todos ops, jsTrim t.text ≠ "" := by
  induction ops with
  | nil => exact fun todos h => h
  | cons op rest ih =>
      intro todos h
      exact ih (applyOp todos op) (text_inv_applyOp todos op h)

/-- C7 fails on the code: the loader's repair of a stored entry that lacks
`text` assigns the JavaScript default `todo.text || ''`, i.e. the empty
string, so the loaded list contains a task whose text is empty after
trimming. -/
theorem C7_counterexample :
    ¬ (∀ t ∈ loadTodosFromStorage
        (Stored.array
          [{ id := some 5, text := none, completed := some false
             createdAt := some 5 }]) 99,
        jsTrim t.text ≠ "") := by
  decide

/-- C7 amended: after every sequence of in-memory operations (add, edit,
toggle, delete) starting from the empty list, every task in the list has
non-empty text after trimming — empty submissions are rejected rather than
stored; `load`, however, repairs a stored entry that lacks text to the
empty string (the safe default is `''`), which violates the invariant, as
the second conjunct shows on the entry with id 5 and no text. -/
theorem C7_amended_text_nonempty :
    (∀ ops : List Op, ∀ t ∈ runOps ops, jsTrim t.text ≠ "")
    ∧ (loadTodosFromStorage
        (Stored.array
          [{ id := some 5, text := none, completed := some false
             createdAt := some 5 }]) 99).map (fun t => t.text) = [""] := by
  constructor
  · intro ops
    exact text_inv_runFrom ops [] (by simp)
  · decide

/-- Witness for the amended C7: the task produced by a concrete add has
non-empty trimmed text. -/
theorem C7_witness :
    jsTrim (Task.mk 1 "a" false 1).text ≠ "" :=
  C7_amended_text_nonempty.1 [Op.add 1 "a"] (Task.mk 1 "a" false 1)
    (by decide)

theorem filter_not_countP_length {α : Type} (p : α → Bool) (l : List α) :
    (l.filter (fun a => !p a)).length + l.countP p = l.length := by
  induction l with
  | nil => rfl
  | cons a t ih =>
      cases ha : p a <;>
        simp [List.filter_cons, List.countP_cons, ha] <;> omega

theorem length_applyOp (todos : List Task) (op : Op) :
    (applyOp todos op).length + removedBy todos op =
      todos.length + (if isEffAdd op then 1 else 0) := by
  cases op with
  | add now raw =>
      by_cases hb : jsTrim raw = "" <;>
        simp [applyOp, addTodo, removedBy, isEffAdd, hb]
  | edit i raw =>
      by_cases hb : jsTrim raw = "" <;>
        simp [applyOp, updateTodo, removedBy, isEffAdd, hb]
  | toggle i => simp [applyOp, toggleComplete, removedBy, isEffAdd]
  | del i =>
      simp only [applyOp, deleteTodo, removedBy, isEffAdd, if_false]
      exact filter_not_countP_length (fun t => t.id == i) todos

theorem length_runFrom (ops : List Op) : ∀ todos : List Task,
    (runFrom todos ops).length + removedFrom todos ops =
      todos.length + ops.countP isEffAdd := by
  induction ops with
  | nil => intro todos; simp [runFrom, removedFrom]
  | cons op rest ih =>
      intro todos
      have h1 := length_applyOp todos op
      have h2 := ih (applyOp todos op)
      show (runFrom (applyOp todos op) rest).length +
        (removedBy todos op + removedFrom (applyOp todos op) rest) =
          todos.length + (op :: rest).countP isEffAdd
      rw [List.countP_cons]
      omega

theorem find?_map_pred {α : Type} (f : α → α) (p : α → Bool) (l : List α)
    (h : ∀ a, p (f a) = p a) :
    (l.map f).find? p = (l.find? p).map f := by
  induction l with
  | nil => rfl
  | cons a t ih =>
      cases ha : p a
      · rw [List.map_cons,
          List.find?_cons_of_neg _ (by simp [(h a).trans ha]),
          List.find?_cons_of_neg _ (by simp [ha]), ih]
      · rw [List.map_cons, List.find?_cons_of_pos _ ((h a).trans ha),
          List.find?_cons_of_pos _ ha]
        rfl

theorem find?_filter_of_imp {α : Type} (p q : α → Bool) (l : List α)
    (h : ∀ a, p a = true → q a = true) :
    (l.filter q).find? p = l.find? p := by
  induction l with
  | nil => rfl
  | cons a t ih =>
      cases hq : q a
      · have hp : p a = false := by
          cases hp2 : p a
          · rfl
          · rw [h a hp2] at hq
            cases hq
        rw [List.filter_cons_of_neg (by simp [hq]), ih,
          List.find?_cons_of_neg t (by simp [hp])]
      · rw [List.filter_cons_of_pos hq]
        cases hp : p a
        · rw [List.find?_cons_of_neg _ (by simp [hp]),
            List.find?_cons_of_neg t (by simp [hp]), ih]
        · rw [List.find?_cons_of_pos _ hp, List.find?_cons_of_pos t hp]

theorem find?_applyOp (todos : List Task) (op : Op) (i : Int) :
    (applyOp todos op).find? (fun t => t.id == i) =
      stepSim i (todos.find? (fun t => t.id == i)) op := by
  cases op with
  | add now raw =>
      by_cases hb : jsTrim raw = ""
      · rw [show applyOp todos (Op.add now raw) = todos from
          by simp [applyOp, addTodo, hb]]
        cases hs : todos.find? (fun t => t.id == i) <;> simp [stepSim, hb, hs]
      · rw [show applyOp todos (Op.add now raw) = todos ++
          [{ id := now, text := jsTrim raw, completed := false,
             createdAt := now }] from by simp [applyOp, addTodo, hb]]
        rw [List.find?_append]
        by_cases hi : now = i
        · subst hi
          cases hs : todos.find? (fun t => t.id == now) <;>
            simp [stepSim, hb, hs]
        · cases hs : todos.find? (fun t => t.id == i) <;>
            simp [stepSim, hb, hs, hi]
  | edit j raw =>
      by_cases hb : jsTrim raw = ""
      · rw [show applyOp todos (Op.edit j raw) = todos from
          by simp [applyOp, updateTodo, hb]]
        cases hs : todos.find? (fun t => t.id == i) <;> simp [stepSim, hb, hs]
      · rw [show applyOp todos (Op.edit j raw) = todos.map (fun todo =>
          if todo.id == j then { todo with text := jsTrim raw } else todo)
          from by simp [applyOp, updateTodo, hb]]
        rw [find?_map_pred _ _ _ (fun a => by
          by_cases h2 : (a.id == j) = true <;> simp [h2])]
        cases hs : todos.find? (fun t => t.id == i)
        · simp [stepSim]
        · have hp := List.find?_some hs
          rw [beq_iff_eq] at hp
          by_cases hji : j = i
          · subst hji
            simp [stepSim, hp, hb]
          · simp [stepSim, hp, hji, hb, Ne.symm hji]
  | toggle j =>
      rw [show applyOp todos (Op.toggle j) = todos.map (fun todo =>
        if todo.id == j then { todo with completed := !todo.completed }
        else todo) from by simp [applyOp, toggleComplete]]
      rw [find?_map_pred _ _ _ (fun a => by
        by_cases h2 : (a.id == j) = true <;> simp [h2])]
      cases hs : todos.find? (fun t => t.id == i)
      · simp [stepSim]
      · have hp := List.find?_some hs
        rw [beq_iff_eq] at hp
        by_cases hji : j = i
        · subst hji
          simp [stepSim, hp]
        · simp [stepSim, hp, hji, Ne.symm hji]
  | del j =>
      by_cases hji : j = i
      · subst hji
        rw [show stepSim j (todos.find? (fun t => t.id == j)) (Op.del j) =
          none from by simp [stepSim]]
        rw [List.find?_eq_none]
        intro x hx
        have hmem := (List.mem_filter.mp hx).2
        simp only [Bool.not_eq_true', beq_eq_false_iff_ne] at hmem
        simp [hmem]
      · show ((todos.filter (fun todo => !(todo.id == j))).find?
          (fun t => t.id == i)) = _
        rw [find?_filter_of_imp _ _ _ (fun a ha => by
          rw [beq_iff_eq] at ha
          simp [ha, Ne.symm hji])]
        simp [stepSim, hji]

theorem find?_runFrom (ops : List Op) : ∀ (todos : List Task) (i : Int),
    (runFrom todos ops).find? (fun t => t.id == i) =
      ops.foldl (stepSim i) (todos.find? (fun t => t.id == i)) := by
  induction ops with
  | nil => intro todos i; rfl
  | cons op rest ih =>
      intro todos i
      show (runFrom (applyOp todos op) rest).find? (fun t => t.id == i) =
        rest.foldl (stepSim i) (stepSim i (todos.find? (fun t => t.id == i)) op)
      rw [← find?_applyOp todos op i]
      exact ih (applyOp todos op) i

/-- C8 as stated fails on the code: a blank add is a no-op, so after the
single operation add("") the list length is 0 while the number of adds
minus the number of deletes is 1. -/
theorem C8_counterexample :
    (runOps [Op.add 1 ""]).length ≠
      [Op.add 1 ""].countP isAddOp - [Op.add 1 ""].countP isDelOp := by
  decide

/-- C8 amended: for every sequence of add/edit/toggle/delete operations
from the empty list, the resulting length equals the number of effective
adds (trimmed input non-empty) minus the number of tasks actually removed
by deletes; every remaining task's fields follow the latest effective
edit/toggle applied to its id, in the sense that looking the id up in the
final list agrees with replaying the operations for that id alone
(`stepSim`, where the latest write wins); deletion keeps the remaining
tasks in their original relative order, so add("A"), add("B"),
delete(idOfA) leaves exactly the "B" task. -/
theorem C8_amended_accounting_and_latest_writes :
    (∀ ops : List Op,
      (runOps ops).length + removedFrom [] ops = ops.countP isEffAdd)
    ∧ (∀ (ops : List Op) (i : Int),
        (runOps ops).find? (fun t => t.id == i) = ops.foldl (stepSim i) none)
    ∧ (∀ (todos : List Task) (i : Int), (deleteTodo todos i).Sublist todos)
    ∧ runOps [Op.add 1 "A", Op.add 2 "B", Op.del 1] =
        [{ id := 2, text := "B", completed := false, createdAt := 2 }] := by
  refine ⟨?_, ?_, ?_, by decide⟩
  · intro ops
    simpa using length_runFrom ops []
  · intro ops i
    exact find?_runFrom ops [] i
  · intro todos i
    exact List.filter_sublist _

end TodoApp
